import Mathlib

/-!
# Verification of `django_clickhouse.utils` threading helpers

Shallow embedding of `src/django_clickhouse/utils.py`:

* `ExceptionThread` — a thread wrapper that captures the exception raised in
  the thread body (`run`) and re-raises it when the thread is joined (`join`).
* `exec_in_parallel(func, args_queue, threads_count)` — spawns
  `min(qsize, threads_count) if threads_count else qsize` worker threads;
  each worker repeatedly performs a non-blocking dequeue (`get_nowait`),
  calls `func(*args, **kwargs)`, and appends the result to a shared list
  under a lock; a worker terminates when the queue is empty, and an
  exception from `func` escapes the worker loop and is captured by its
  `ExceptionThread`.  The coordinator joins the threads in start order and
  the first captured exception is re-raised.
* `exec_multi_db_func(func, using, *args, threads_count, **kwargs)` — the
  fan-out dispatcher: `[]` for no resources, a synchronous call for one
  resource, otherwise one queued item `([s] + args, kwargs)` per resource,
  delegated to `exec_in_parallel`.

The concurrent execution is modelled as a small-step transition system over
a `RunState`, parameterised by an arbitrary *schedule* (the list of worker
indices chosen by the OS scheduler).  One step of a running worker performs
the atomic dequeue of the Python `Queue` together with the call of `func`
and the lock-guarded append; this granularity is sound for the properties
proved here (multiset of results, dequeue accounting, per-worker outcome
and join order), none of which can distinguish finer interleavings of the
lock-guarded append.  A Python work item `(args, kwargs)` is a pair
`List α × κ`; a call of `func` is a value of `Except ε β` (an `Exception`
value `ε` or a result `β`).
-/

namespace DjangoClickhouse

/-- Outcome state of one `ExceptionThread` running `_worker`:
still executing, finished normally (its `exc` attribute is `None`),
or finished with a captured exception (`exc` holds it). -/
inductive WorkerStatus (ε : Type) where
  | running : WorkerStatus ε
  | done : WorkerStatus ε
  | failed : ε → WorkerStatus ε
  deriving Repr, DecidableEq

/-- A Python work item: the `(args, kwargs)` tuple put on the `Queue`. -/
abbrev WorkItem (α κ : Type) := List α × κ

/-- The shared state of one `exec_in_parallel` run: the remaining `Queue`
content (front of list = next `get_nowait`), a log of performed dequeues
(which worker took which item, in order), the shared `results` list, and
the status of every spawned worker thread (position = start order). -/
structure RunState (α κ β ε : Type) where
  queue : List (WorkItem α κ)
  dequeued : List (Nat × WorkItem α κ)
  results : List β
  workers : List (WorkerStatus ε)
  deriving Repr, DecidableEq

/-- One scheduler step by worker `i`, translating the body of
`exec_in_parallel._worker` wrapped in `ExceptionThread.run`:
a running worker performs `args_queue.get_nowait()`; on `Empty` it sets
`finished = True` (status `done`); otherwise it calls
`func(*args, **kwargs)` — a normal result is appended to `results`
under the lock, while an exception escapes the `while` loop and is
stored by `ExceptionThread.run` (status `failed e`, the item neither
re-enqueued nor producing a result).  A step by a non-running or
non-existent worker changes nothing. -/
def step (func : WorkItem α κ → Except ε β) (s : RunState α κ β ε) (i : Nat) :
    RunState α κ β ε :=
  match s.workers[i]? with
  | some WorkerStatus.running =>
    match s.queue with
    | [] => { s with workers := s.workers.set i WorkerStatus.done }
    | item :: rest =>
      match func item with
      | Except.ok r =>
        { s with
          queue := rest
          dequeued := s.dequeued ++ [(i, item)]
          results := s.results ++ [r] }
      | Except.error e =>
        { s with
          queue := rest
          dequeued := s.dequeued ++ [(i, item)]
          workers := s.workers.set i (WorkerStatus.failed e) }
  | _ => s

/-- Run a whole schedule (sequence of scheduler choices) from a state. -/
def run (func : WorkItem α κ → Except ε β) (s : RunState α κ β ε)
    (sched : List Nat) : RunState α κ β ε :=
  sched.foldl (step func) s

/-- `threads_count = min(args_queue.qsize(), threads_count) if threads_count
else args_queue.qsize()` — note Python truthiness: both `None` and `0`
take the `else` branch.  The value is an integer: a negative
`threads_count` yields a negative resolved count. -/
def resolvedCount (qsize : Nat) (threadsCount : Option Int) : Int :=
  match threadsCount with
  | none => qsize
  | some k => if k = 0 then (qsize : Int) else min (qsize : Int) k

/-- Number of threads actually spawned by `for index in range(threads_count)`:
`range` of a non-positive integer is empty. -/
def spawnCount (qsize : Nat) (threadsCount : Option Int) : Nat :=
  (resolvedCount qsize threadsCount).toNat

/-- The state at the start of a run: the pre-populated queue, no dequeues,
no results, and `spawnCount` freshly started workers. -/
def initState (items : List (WorkItem α κ)) (n : Nat) : RunState α κ β ε :=
  { queue := items
    dequeued := []
    results := []
    workers := List.replicate n WorkerStatus.running }

/-- The state after `exec_in_parallel` has spawned its workers and the
scheduler has run `sched`. -/
def runFinal (func : WorkItem α κ → Except ε β) (items : List (WorkItem α κ))
    (threadsCount : Option Int) (sched : List Nat) : RunState α κ β ε :=
  run func (initState items (spawnCount items.length threadsCount)) sched

/-- `for t in threads: t.join()` with `ExceptionThread.join`: threads are
joined in start order, and joining a thread whose `exc` is set re-raises
that exception; the loop raises the first such exception, otherwise
`results` is returned. -/
def joinAll : List (WorkerStatus ε) → List β → Except ε (List β)
  | [], res => Except.ok res
  | WorkerStatus.failed e :: _, _ => Except.error e
  | WorkerStatus.running :: rest, res => joinAll rest res
  | WorkerStatus.done :: rest, res => joinAll rest res

/-- `exec_in_parallel(func, args_queue, threads_count)` under schedule
`sched`: spawn, run, join in start order, return `results` or re-raise. -/
def execInParallel (func : WorkItem α κ → Except ε β)
    (items : List (WorkItem α κ)) (threadsCount : Option Int)
    (sched : List Nat) : Except ε (List β) :=
  joinAll (runFinal func items threadsCount sched).workers
    (runFinal func items threadsCount sched).results

/-- A run is complete when every worker thread has terminated (which is
what the coordinator's joins wait for). -/
def completed (s : RunState α κ β ε) : Prop :=
  ∀ w ∈ s.workers, w ≠ WorkerStatus.running

instance (s : RunState α κ β ε) [DecidableEq ε] : Decidable (completed s) := by
  unfold completed; infer_instance

/-- Observable outcome of one `exec_multi_db_func` call: the returned list
(or propagated exception), the number of threads spawned, and the number
of calls of `func` performed during the scheduled run. -/
structure DispatchResult (β ε : Type) where
  result : Except ε (List β)
  threadsSpawned : Nat
  funcCalls : Nat
  deriving Repr

/-- `exec_multi_db_func(func, using, *args, threads_count, **kwargs)`:
`using` is materialised to a list; zero aliases return `[]`; a single
alias calls `func(using[0], *args, **kwargs)` synchronously in the
caller's thread and wraps the value in a one-element list (an exception
propagates); otherwise one item `([s] + list(args), kwargs)` per alias is
put on a fresh `Queue` and `exec_in_parallel` is called with the same
`threads_count`. -/
def execMultiDbFunc (func : WorkItem α κ → Except ε β) (using_ : List α)
    (args : List α) (kwargs : κ) (threadsCount : Option Int)
    (sched : List Nat) : DispatchResult β ε :=
  match using_ with
  | [] => ⟨Except.ok [], 0, 0⟩
  | [s] => ⟨(func (s :: args, kwargs)).map (fun r => [r]), 0, 1⟩
  | _ =>
    let items := using_.map (fun s => (s :: args, kwargs))
    let final := runFinal func items threadsCount sched
    ⟨joinAll final.workers final.results,
      spawnCount items.length threadsCount,
      final.dequeued.length⟩

/-! ## Basic lemmas about the step semantics -/

theorem run_nil (func : WorkItem α κ → Except ε β) (s : RunState α κ β ε) :
    run func s [] = s := rfl

theorem run_cons (func : WorkItem α κ → Except ε β) (s : RunState α κ β ε)
    (i : Nat) (sched : List Nat) :
    run func s (i :: sched) = run func (step func s i) sched := rfl

theorem step_workers_length (func : WorkItem α κ → Except ε β)
    (s : RunState α κ β ε) (i : Nat) :
    (step func s i).workers.length = s.workers.length := by
  unfold step
  repeat' split
  all_goals simp [List.length_set]

theorem run_workers_length (func : WorkItem α κ → Except ε β)
    (s : RunState α κ β ε) (sched : List Nat) :
    (run func s sched).workers.length = s.workers.length := by
  induction sched generalizing s with
  | nil => rfl
  | cons i rest ih =>
    rw [run_cons]
    rw [ih, step_workers_length]

/-- Queue accounting: a step moves at most the head of the queue to the
dequeue log and touches nothing else of the pair. -/
theorem step_accounting (func : WorkItem α κ → Except ε β)
    (s : RunState α κ β ε) (i : Nat) :
    (step func s i).dequeued.map Prod.snd ++ (step func s i).queue
      = s.dequeued.map Prod.snd ++ s.queue := by
  unfold step
  repeat' split
  all_goals simp_all

theorem run_accounting (func : WorkItem α κ → Except ε β)
    (s : RunState α κ β ε) (sched : List Nat) :
    (run func s sched).dequeued.map Prod.snd ++ (run func s sched).queue
      = s.dequeued.map Prod.snd ++ s.queue := by
  induction sched generalizing s with
  | nil => rfl
  | cons i rest ih =>
    rw [run_cons]
    rw [ih, step_accounting]

/-- Once the queue has been observed empty by some worker (a worker became
`done`), it stays empty: nothing is enqueued mid-run. -/
def doneImpliesEmpty (s : RunState α κ β ε) : Prop :=
  WorkerStatus.done ∈ s.workers → s.queue = []

theorem step_doneImpliesEmpty (func : WorkItem α κ → Except ε β)
    (s : RunState α κ β ε) (i : Nat) (h : doneImpliesEmpty s) :
    doneImpliesEmpty (step func s i) := by
  unfold step
  repeat' split
  · -- worker observed an empty queue and became done
    intro _
    assumption
  · -- successful call: workers unchanged, queue was nonempty
    intro hd
    have := h hd
    simp_all
  · -- failing call: worker set to failed, queue was nonempty
    rename_i hq _ _
    intro hd
    rcases List.mem_or_eq_of_mem_set hd with hmem | habs
    · have := h hmem
      simp_all
    · exact absurd habs (by simp)
  · exact h

theorem run_doneImpliesEmpty (func : WorkItem α κ → Except ε β)
    (s : RunState α κ β ε) (sched : List Nat) (h : doneImpliesEmpty s) :
    doneImpliesEmpty (run func s sched) := by
  induction sched generalizing s with
  | nil => exact h
  | cons i rest ih =>
    rw [run_cons]
    exact ih _ (step_doneImpliesEmpty func s i h)

/-! ## Lemmas about joining -/

/-- If no joined thread carries an exception, the join loop falls through
and `exec_in_parallel` returns the shared results list. -/
theorem joinAll_ok (ws : List (WorkerStatus ε)) (res : List β)
    (h : ∀ w ∈ ws, ∀ e, w ≠ WorkerStatus.failed e) :
    joinAll ws res = Except.ok res := by
  induction ws with
  | nil => rfl
  | cons w rest ih =>
    cases w with
    | running => exact ih fun w hw => h w (List.mem_cons_of_mem _ hw)
    | done => exact ih fun w hw => h w (List.mem_cons_of_mem _ hw)
    | failed e => exact absurd rfl (h _ (List.mem_cons_self _ _) e)

/-- Joining in start order surfaces the exception of the first-started
thread whose `exc` is set. -/
theorem joinAll_error (ws : List (WorkerStatus ε)) (res : List β) (i : Nat)
    (e : ε) (hi : ws[i]? = some (WorkerStatus.failed e))
    (hmin : ∀ j < i, ∀ e', ws[j]? ≠ some (WorkerStatus.failed e')) :
    joinAll ws res = Except.error e := by
  induction ws generalizing i with
  | nil => simp at hi
  | cons w rest ih =>
    cases i with
    | zero =>
      simp at hi
      rw [hi]
      rfl
    | succ i' =>
      have hw : ∀ e', w ≠ WorkerStatus.failed e' := by
        intro e' hcontra
        exact hmin 0 (Nat.succ_pos i') e' (by simp [hcontra])
      have hrec : joinAll rest res = Except.error e := by
        apply ih i' (by simpa using hi)
        intro j hj e' hcontra
        exact hmin (j + 1) (Nat.succ_lt_succ hj) e' (by simpa using hcontra)
      cases w with
      | running => exact hrec
      | done => exact hrec
      | failed e' => exact absurd rfl (hw e')

/-! ## Persistence of a captured failure -/

/-- A worker whose thread body already terminated with a captured exception
is never scheduled to do anything again: its steps change nothing (in
particular it performs no further dequeue). -/
theorem step_failed_noop (func : WorkItem α κ → Except ε β)
    (s : RunState α κ β ε) (i : Nat) (e : ε)
    (h : s.workers[i]? = some (WorkerStatus.failed e)) :
    step func s i = s := by
  unfold step
  rw [h]

/-- A step by worker `j` does not change the status of a different worker. -/
theorem step_workers_other (func : WorkItem α κ → Except ε β)
    (s : RunState α κ β ε) (i j : Nat) (hne : j ≠ i) :
    (step func s j).workers[i]? = s.workers[i]? := by
  unfold step
  repeat' split
  all_goals dsimp only
  all_goals try rw [List.getElem?_set_ne hne]

/-- No step by any worker changes the recorded outcome of a failed worker. -/
theorem step_preserves_failed (func : WorkItem α κ → Except ε β)
    (s : RunState α κ β ε) (i j : Nat) (e : ε)
    (h : s.workers[i]? = some (WorkerStatus.failed e)) :
    (step func s j).workers[i]? = some (WorkerStatus.failed e) := by
  rcases eq_or_ne j i with rfl | hne
  · rw [step_failed_noop func s j e h]
    exact h
  · rw [step_workers_other func s i j hne]
    exact h

theorem run_preserves_failed (func : WorkItem α κ → Except ε β)
    (s : RunState α κ β ε) (i : Nat) (e : ε) (sched : List Nat)
    (h : s.workers[i]? = some (WorkerStatus.failed e)) :
    (run func s sched).workers[i]? = some (WorkerStatus.failed e) := by
  induction sched generalizing s with
  | nil => exact h
  | cons j rest ih =>
    rw [run_cons]
    exact ih _ (step_preserves_failed func s i j e h)

/-! ## Runs with no workers -/

theorem step_no_workers (func : WorkItem α κ → Except ε β)
    (s : RunState α κ β ε) (i : Nat) (h : s.workers = []) :
    step func s i = s := by
  unfold step
  rw [h]
  rfl

theorem run_no_workers (func : WorkItem α κ → Except ε β)
    (s : RunState α κ β ε) (sched : List Nat) (h : s.workers = []) :
    run func s sched = s := by
  induction sched generalizing s with
  | nil => rfl
  | cons i rest ih =>
    rw [run_cons, step_no_workers func s i h]
    exact ih s h

/-! ## Runs in which every call of `func` succeeds -/

/-- Invariant preserved by every step when `func` succeeds on every queued
item: the dequeue log and queue partition the original items, the results
are exactly the values of the dequeued items, and no worker has failed. -/
theorem step_success_inv (func : WorkItem α κ → Except ε β)
    (g : WorkItem α κ → β) (items : List (WorkItem α κ))
    (s : RunState α κ β ε) (i : Nat)
    (hg : ∀ it ∈ items, func it = Except.ok (g it))
    (hacc : s.dequeued.map Prod.snd ++ s.queue = items)
    (hres : s.results = s.dequeued.map (fun p => g p.2))
    (hnf : ∀ w ∈ s.workers,
      w = WorkerStatus.running ∨ w = WorkerStatus.done) :
    (step func s i).dequeued.map Prod.snd ++ (step func s i).queue = items
    ∧ (step func s i).results
        = (step func s i).dequeued.map (fun p => g p.2)
    ∧ ∀ w ∈ (step func s i).workers,
        w = WorkerStatus.running ∨ w = WorkerStatus.done := by
  unfold step
  repeat' split
  · -- queue empty: the worker becomes done
    refine ⟨hacc, hres, ?_⟩
    intro w hw
    rcases List.mem_or_eq_of_mem_set hw with hmem | hdone
    · exact hnf w hmem
    · exact Or.inr hdone
  · -- successful call
    rename_i item rest hq x r hok
    have hmem : item ∈ items := by
      rw [← hacc]
      refine List.mem_append_right _ ?_
      rw [hq]
      exact List.mem_cons_self _ _
    have hval := hg item hmem
    rw [hok] at hval
    simp only [Except.ok.injEq] at hval
    refine ⟨?_, ?_, hnf⟩
    · dsimp only
      simp only [List.map_append, List.map_cons, List.map_nil,
        List.append_assoc, List.singleton_append]
      rw [← hq]
      exact hacc
    · dsimp only
      simp [hres, hval]
  · -- failing call: impossible, `func` succeeds on every queued item
    rename_i item rest hq x e herr
    have hmem : item ∈ items := by
      rw [← hacc]
      refine List.mem_append_right _ ?_
      rw [hq]
      exact List.mem_cons_self _ _
    have hval := hg item hmem
    rw [herr] at hval
    simp at hval
  · exact ⟨hacc, hres, hnf⟩

theorem run_success_inv (func : WorkItem α κ → Except ε β)
    (g : WorkItem α κ → β) (items : List (WorkItem α κ))
    (s : RunState α κ β ε) (sched : List Nat)
    (hg : ∀ it ∈ items, func it = Except.ok (g it))
    (hacc : s.dequeued.map Prod.snd ++ s.queue = items)
    (hres : s.results = s.dequeued.map (fun p => g p.2))
    (hnf : ∀ w ∈ s.workers,
      w = WorkerStatus.running ∨ w = WorkerStatus.done) :
    (run func s sched).dequeued.map Prod.snd ++ (run func s sched).queue
        = items
    ∧ (run func s sched).results
        = (run func s sched).dequeued.map (fun p => g p.2)
    ∧ ∀ w ∈ (run func s sched).workers,
        w = WorkerStatus.running ∨ w = WorkerStatus.done := by
  induction sched generalizing s with
  | nil => exact ⟨hacc, hres, hnf⟩
  | cons i rest ih =>
    rw [run_cons]
    obtain ⟨h1, h2, h3⟩ := step_success_inv func g items s i hg hacc hres hnf
    exact ih _ h1 h2 h3

/-- A positive number of workers is spawned whenever the queue is non-empty
and `threads_count` is `None` or non-negative. -/
theorem spawnCount_pos (items : List (WorkItem α κ))
    (threadsCount : Option Int) (hne : items ≠ [])
    (htc : ∀ k, threadsCount = some k → 0 ≤ k) :
    0 < spawnCount items.length threadsCount := by
  have hlen : 0 < items.length := List.length_pos.mpr hne
  unfold spawnCount resolvedCount
  cases threadsCount with
  | none => simpa using hlen
  | some k =>
    have hk := htc k rfl
    by_cases hk0 : k = 0
    · simp [hk0]
      omega
    · simp [hk0]
      omega

/-- The summary of a completed run in which every call of `func` succeeds
(and the worker count is not negative): the queue is drained, the dequeue
log is exactly the original queue content, the results are the values of
`func` on all items, and the join returns them. -/
theorem runFinal_success (func : WorkItem α κ → Except ε β)
    (g : WorkItem α κ → β) (items : List (WorkItem α κ))
    (threadsCount : Option Int) (sched : List Nat)
    (hg : ∀ it ∈ items, func it = Except.ok (g it))
    (htc : ∀ k, threadsCount = some k → 0 ≤ k)
    (hc : completed (runFinal func items threadsCount sched)) :
    (runFinal func items threadsCount sched).queue = []
    ∧ (runFinal func items threadsCount sched).dequeued.map Prod.snd = items
    ∧ (runFinal func items threadsCount sched).results = items.map g
    ∧ execInParallel func items threadsCount sched
        = Except.ok ((runFinal func items threadsCount sched).results) := by
  set n := spawnCount items.length threadsCount with hn
  obtain ⟨tacc, tres, tnf⟩ :=
    run_success_inv func g items (initState items n) sched hg
      (by simp [initState]) (by simp [initState])
      (by
        intro w hw
        simp only [initState] at hw
        exact Or.inl (List.eq_of_mem_replicate hw))
  set t := runFinal func items threadsCount sched with ht
  have hrt : run func (initState items n) sched = t := by
    rw [ht]
    rfl
  rw [hrt] at tacc tres tnf
  have htw : t.workers.length = n := by
    rw [ht]
    unfold runFinal
    rw [run_workers_length]
    simp [initState]
  have hdone : ∀ w ∈ t.workers, w = WorkerStatus.done := by
    intro w hw
    rcases tnf w hw with hrun | hd
    · exact absurd hrun (by simpa [hrun] using hc w hw)
    · exact hd
  have hqe : t.queue = [] := by
    rcases List.eq_nil_or_concat items with hitems | _
    · -- empty queue: nothing was ever in it
      have := tacc
      rw [hitems] at this
      exact (List.append_eq_nil.mp this).2
    · -- non-empty queue: some worker is spawned and observes emptiness
      have hne : items ≠ [] := by
        rename_i hcc
        obtain ⟨l, a, rfl⟩ := hcc
        simp
      have hpos : 0 < n := spawnCount_pos items threadsCount hne htc
      have hwne : t.workers ≠ [] := by
        intro hcontra
        rw [hcontra] at htw
        simp at htw
        omega
      have hmem : WorkerStatus.done ∈ t.workers := by
        have := hdone (t.workers.head hwne) (List.head_mem hwne)
        rw [← this]
        exact List.head_mem hwne
      refine run_doneImpliesEmpty func (initState items n) sched ?_ hmem
      intro hcontra
      simp only [initState] at hcontra
      exact absurd (List.eq_of_mem_replicate hcontra) (by simp)
  have hdeq : t.dequeued.map Prod.snd = items := by
    have := tacc
    rw [hqe] at this
    simpa using this
  refine ⟨hqe, hdeq, ?_, ?_⟩
  · rw [tres, ← hdeq, List.map_map]
    rfl
  · unfold execInParallel
    rw [← ht]
    exact joinAll_ok t.workers t.results
      (by
        intro w hw e hcontra
        rw [hdone w hw] at hcontra
        simp at hcontra)

instance [DecidableEq ε] [DecidableEq β] : DecidableEq (Except ε β) := by
  intro a b
  cases a <;> cases b
  case ok.ok x y =>
    exact decidable_of_iff (x = y) (by simp)
  case error.error x y =>
    exact decidable_of_iff (x = y) (by simp)
  all_goals exact isFalse (by simp)

/-! ## Runs with zero spawned workers -/

theorem runFinal_zero_workers (func : WorkItem α κ → Except ε β)
    (items : List (WorkItem α κ)) (threadsCount : Option Int)
    (sched : List Nat) (h : spawnCount items.length threadsCount = 0) :
    runFinal func items threadsCount sched
      = (initState items 0 : RunState α κ β ε) := by
  unfold runFinal
  rw [h]
  exact run_no_workers func _ sched (by simp [initState])

theorem execInParallel_zero_workers (func : WorkItem α κ → Except ε β)
    (items : List (WorkItem α κ)) (threadsCount : Option Int)
    (sched : List Nat) (h : spawnCount items.length threadsCount = 0) :
    execInParallel func items threadsCount sched = Except.ok [] := by
  unfold execInParallel
  rw [runFinal_zero_workers func items threadsCount sched h]
  rfl

theorem spawnCount_of_empty (threadsCount : Option Int) :
    spawnCount 0 threadsCount = 0 := by
  unfold spawnCount resolvedCount
  cases threadsCount with
  | none => rfl
  | some k =>
    by_cases hk : k = 0
    · simp [hk]
    · simp [hk]
      try omega

/-- Join-order characterisation: if some joined thread carries a captured
exception, the join loop raises the exception of the first-started such
thread. -/
theorem joinAll_error_of_failure (ws : List (WorkerStatus ε)) (res : List β)
    (hex : ∃ (j : Nat) (e' : ε), ws[j]? = some (WorkerStatus.failed e')) :
    ∃ (i : Nat) (e : ε), ws[i]? = some (WorkerStatus.failed e)
      ∧ (∀ j < i, ∀ e' : ε, ws[j]? ≠ some (WorkerStatus.failed e'))
      ∧ joinAll ws res = Except.error e := by
  induction ws with
  | nil =>
    obtain ⟨j, e', hj⟩ := hex
    simp at hj
  | cons w rest ih =>
    cases w with
    | failed e =>
      exact ⟨0, e, by simp, fun j hj e'' => absurd hj (Nat.not_lt_zero j), rfl⟩
    | running =>
      obtain ⟨j, e', hj⟩ := hex
      cases j with
      | zero => simp at hj
      | succ j' =>
        obtain ⟨i, e, hi, hmin, hjoin⟩ := ih ⟨j', e', by simpa using hj⟩
        refine ⟨i + 1, e, by simpa using hi, ?_, hjoin⟩
        intro j hj e''
        cases j with
        | zero => simp
        | succ j'' => simpa using hmin j'' (by omega) e''
    | done =>
      obtain ⟨j, e', hj⟩ := hex
      cases j with
      | zero => simp at hj
      | succ j' =>
        obtain ⟨i, e, hi, hmin, hjoin⟩ := ih ⟨j', e', by simpa using hj⟩
        refine ⟨i + 1, e, by simpa using hi, ?_, hjoin⟩
        intro j hj e''
        cases j with
        | zero => simp
        | succ j'' => simpa using hmin j'' (by omega) e''

/-! ## Concrete data for evaluating the definitions -/

/-- A two-item queue: `[(args=[1], kwargs=()), (args=[2], kwargs=())]`. -/
def sampleItems : List (WorkItem Nat Unit) := [([1], ()), ([2], ())]

/-- A function that succeeds on every invocation. -/
def okFunc : WorkItem Nat Unit → Except Unit Nat :=
  fun it => Except.ok (it.1.headD 0 + 10)

/-- The value computed by `okFunc`. -/
def okVal : WorkItem Nat Unit → Nat := fun it => it.1.headD 0 + 10

/-- A function that raises on every invocation. -/
def failFunc : WorkItem Nat Unit → Except Unit Nat :=
  fun _ => Except.error ()

/-! ## Claim theorems -/

/-- Claim C1: in every completed run of `exec_in_parallel` in which at least
one worker's `func` invocation raised, the executor call itself raises, and
the exception surfaced in the coordinator's thread is exactly the exception
captured by the first-started worker that failed (re-raised verbatim by
`ExceptionThread.join` when that worker is joined, joins being in worker
start order). -/
theorem exec_in_parallel_raises_first_worker_failure
    (func : WorkItem α κ → Except ε β) (items : List (WorkItem α κ))
    (threadsCount : Option Int) (sched : List Nat)
    (hc : completed (runFinal func items threadsCount sched))
    (hex : ∃ (j : Nat) (e' : ε),
      (runFinal func items threadsCount sched).workers[j]?
        = some (WorkerStatus.failed e')) :
    ∃ (i : Nat) (e : ε),
      (runFinal func items threadsCount sched).workers[i]?
          = some (WorkerStatus.failed e)
      ∧ (∀ j < i, ∀ e' : ε,
          (runFinal func items threadsCount sched).workers[j]?
            ≠ some (WorkerStatus.failed e'))
      ∧ execInParallel func items threadsCount sched = Except.error e :=
  joinAll_error_of_failure _ _ hex

/-- Concrete completed run with a failing worker, checked by evaluation. -/
theorem exec_in_parallel_raises_first_worker_failure_check :
    ∃ (i : Nat) (e : Unit),
      (runFinal failFunc sampleItems none [0, 1]).workers[i]?
          = some (WorkerStatus.failed e)
      ∧ (∀ j < i, ∀ e' : Unit,
          (runFinal failFunc sampleItems none [0, 1]).workers[j]?
            ≠ some (WorkerStatus.failed e'))
      ∧ execInParallel failFunc sampleItems none [0, 1] = Except.error e :=
  exec_in_parallel_raises_first_worker_failure failFunc sampleItems none
    [0, 1] (by decide) ⟨0, (), by decide⟩

/-- Claim C2: for every queue and every `func` that succeeds on all
invocations (and a non-negative worker cap), any completed run of
`exec_in_parallel` returns a list whose size equals the number of work
items and whose multiset of values is the multiset of values of `func` on
the items; no order is asserted. -/
theorem exec_in_parallel_success_results
    (func : WorkItem α κ → Except ε β) (g : WorkItem α κ → β)
    (items : List (WorkItem α κ)) (threadsCount : Option Int)
    (sched : List Nat)
    (hg : ∀ it ∈ items, func it = Except.ok (g it))
    (htc : ∀ k, threadsCount = some k → 0 ≤ k)
    (hc : completed (runFinal func items threadsCount sched)) :
    ∃ res, execInParallel func items threadsCount sched = Except.ok res
      ∧ res.length = items.length
      ∧ Multiset.ofList res = Multiset.ofList (items.map g) := by
  obtain ⟨-, -, hres, hexec⟩ :=
    runFinal_success func g items threadsCount sched hg htc hc
  refine ⟨_, hexec, ?_, ?_⟩
  · rw [hres]
    simp
  · rw [hres]

/-- Concrete all-success run, checked by evaluation. -/
theorem exec_in_parallel_success_results_check :
    ∃ res, execInParallel okFunc sampleItems none [0, 0, 0, 1] = Except.ok res
      ∧ res.length = sampleItems.length
      ∧ Multiset.ofList res = Multiset.ofList (sampleItems.map okVal) :=
  exec_in_parallel_success_results okFunc okVal sampleItems none [0, 0, 0, 1]
    (fun it _ => rfl) (fun k h => nomatch h) (by decide)

/-- Claim C3: the resolved worker count of `exec_in_parallel` is the queue
length when `threads_count` is unset, `min(queue length, threads_count)`
when it is set (to a value Python treats as set, i.e. non-zero — see the
claim about `threads_count = 0`), and on an empty queue no thread is
spawned and the call returns an empty list without error. -/
theorem exec_in_parallel_worker_count_resolution
    (func : WorkItem α κ → Except ε β) (items : List (WorkItem α κ))
    (threadsCount : Option Int) (sched : List Nat) :
    resolvedCount items.length none = (items.length : Int)
    ∧ (∀ k : Int, k ≠ 0 →
        resolvedCount items.length (some k) = min (items.length : Int) k)
    ∧ (items = [] →
        spawnCount items.length threadsCount = 0
        ∧ execInParallel func items threadsCount sched = Except.ok []) := by
  refine ⟨rfl, ?_, ?_⟩
  · intro k hk
    simp [resolvedCount, hk]
  · intro hitems
    subst hitems
    exact ⟨spawnCount_of_empty threadsCount,
      execInParallel_zero_workers func [] threadsCount sched
        (spawnCount_of_empty threadsCount)⟩

/-- Concrete worker-count computations, checked by evaluation. -/
theorem exec_in_parallel_worker_count_resolution_check :
    resolvedCount (List.length ([] : List (WorkItem Nat Unit))) none = 0
    ∧ resolvedCount (List.length ([] : List (WorkItem Nat Unit))) (some 3)
        = min (0 : Int) 3
    ∧ spawnCount (List.length ([] : List (WorkItem Nat Unit))) (some 3) = 0
    ∧ execInParallel okFunc [] (some 3) [] = Except.ok [] := by
  obtain ⟨h1, h2, h3⟩ :=
    exec_in_parallel_worker_count_resolution okFunc [] (some 3) []
  exact ⟨h1, h2 3 (by decide), (h3 rfl).1, (h3 rfl).2⟩

/-- Claim C4 as stated is false on the code: in the completed run with a
two-item queue, one worker (`threads_count = 1`) and a `func` that raises
on its first item, only one of the two enqueued items is ever dequeued —
the failed worker stops and the second item stays in the queue. -/
theorem exec_in_parallel_dequeue_count_cex :
    completed (runFinal failFunc sampleItems (some 1) [0])
    ∧ (runFinal failFunc sampleItems (some 1) [0]).dequeued.length = 1
    ∧ sampleItems.length = 2
    ∧ (runFinal failFunc sampleItems (some 1) [0]).queue = [([2], ())] := by
  refine ⟨by decide, by decide, by decide, by decide⟩

/-- Claim C4 (amended): in every run, the dequeued items followed by the
items still queued are exactly the enqueued items in order — so no item is
dequeued (handed to a worker) more than once and no item is silently
dropped; and the totals of enqueued and dequeued items are equal by the
run's end provided no `func` invocation fails (and `threads_count` is not
negative) — when an invocation fails, un-dequeued items may remain in the
queue. -/
theorem exec_in_parallel_dequeue_accounting
    (func : WorkItem α κ → Except ε β) (items : List (WorkItem α κ))
    (threadsCount : Option Int) (sched : List Nat) :
    (runFinal func items threadsCount sched).dequeued.map Prod.snd
        ++ (runFinal func items threadsCount sched).queue = items
    ∧ (∀ g : WorkItem α κ → β,
        (∀ it ∈ items, func it = Except.ok (g it)) →
        (∀ k, threadsCount = some k → 0 ≤ k) →
        completed (runFinal func items threadsCount sched) →
        (runFinal func items threadsCount sched).dequeued.map Prod.snd
          = items) := by
  constructor
  · have hinit := run_accounting func
      (initState items (spawnCount items.length threadsCount) :
        RunState α κ β ε) sched
    simpa [runFinal, initState] using hinit
  · intro g hg htc hc
    exact (runFinal_success func g items threadsCount sched hg htc hc).2.1

/-- Concrete accounting in a completed all-success run, by evaluation. -/
theorem exec_in_parallel_dequeue_accounting_check :
    (runFinal okFunc sampleItems none [0, 0, 0, 1]).dequeued.map Prod.snd
        ++ (runFinal okFunc sampleItems none [0, 0, 0, 1]).queue
        = sampleItems
    ∧ (runFinal okFunc sampleItems none [0, 0, 0, 1]).dequeued.map Prod.snd
        = sampleItems :=
  ⟨(exec_in_parallel_dequeue_accounting okFunc sampleItems none
      [0, 0, 0, 1]).1,
    (exec_in_parallel_dequeue_accounting okFunc sampleItems none
      [0, 0, 0, 1]).2 okVal (fun it _ => rfl) (fun k h => nomatch h)
      (by decide)⟩

/-- Claim C5: `exec_multi_db_func` with exactly one resource identifier
calls `func(resource, *args, **kwargs)` exactly once, synchronously in the
caller's thread with no thread spawned, and returns its single value
wrapped in a one-element list (an exception propagating unchanged). -/
theorem exec_multi_db_func_single (func : WorkItem α κ → Except ε β)
    (r : α) (args : List α) (kwargs : κ) (threadsCount : Option Int)
    (sched : List Nat) :
    execMultiDbFunc func [r] args kwargs threadsCount sched
      = ⟨(func (r :: args, kwargs)).map (fun v => [v]), 0, 1⟩ := rfl

/-- Claim C6: `exec_multi_db_func` with two or more resource identifiers
builds exactly one work item `([resource] + args, kwargs)` per resource,
enqueues all of them into a fresh queue, and delegates to
`exec_in_parallel` with the same `threads_count`, returning its result. -/
theorem exec_multi_db_func_fanout (func : WorkItem α κ → Except ε β)
    (a b : α) (rest : List α) (args : List α) (kwargs : κ)
    (threadsCount : Option Int) (sched : List Nat) :
    execMultiDbFunc func (a :: b :: rest) args kwargs threadsCount sched
      = ⟨execInParallel func
            ((a :: b :: rest).map (fun s => (s :: args, kwargs)))
            threadsCount sched,
          spawnCount
            ((a :: b :: rest).map (fun s => (s :: args, kwargs))).length
            threadsCount,
          (runFinal func ((a :: b :: rest).map (fun s => (s :: args, kwargs)))
            threadsCount sched).dequeued.length⟩
    ∧ ((a :: b :: rest).map (fun s => (s :: args, kwargs))).length
        = (a :: b :: rest).length :=
  ⟨rfl, by simp⟩

/-- Claim C7: `exec_multi_db_func` with an empty resource collection
returns `[]` without invoking `func` and without spawning any thread. -/
theorem exec_multi_db_func_empty (func : WorkItem α κ → Except ε β)
    (args : List α) (kwargs : κ) (threadsCount : Option Int)
    (sched : List Nat) :
    execMultiDbFunc func [] args kwargs threadsCount sched
      = ⟨Except.ok [], 0, 0⟩ := rfl

/-- Claim C8: a worker whose `func` invocation raises performs no further
dequeue: the failing step consumes the item (it is not re-enqueued),
appends no result, records the exception as the worker's outcome, the
outcome stays `failed` for the rest of the run, and every later scheduled
step of that worker changes nothing. -/
theorem worker_stops_after_exception (func : WorkItem α κ → Except ε β)
    (s : RunState α κ β ε) (i : Nat) (item : WorkItem α κ)
    (rest : List (WorkItem α κ)) (e : ε)
    (hw : s.workers[i]? = some WorkerStatus.running)
    (hq : s.queue = item :: rest)
    (hf : func item = Except.error e) :
    (step func s i).workers[i]? = some (WorkerStatus.failed e)
    ∧ (step func s i).queue = rest
    ∧ (step func s i).results = s.results
    ∧ (step func s i).dequeued = s.dequeued ++ [(i, item)]
    ∧ (∀ sched, (run func (step func s i) sched).workers[i]?
        = some (WorkerStatus.failed e))
    ∧ (∀ t : RunState α κ β ε,
        t.workers[i]? = some (WorkerStatus.failed e) → step func t i = t) := by
  have hstep : step func s i
      = { s with
          queue := rest
          dequeued := s.dequeued ++ [(i, item)]
          workers := s.workers.set i (WorkerStatus.failed e) } := by
    unfold step
    rw [hw, hq]
    dsimp only
    rw [hf]
  have hlt : i < s.workers.length := by
    rcases List.getElem?_eq_some.mp hw with ⟨h, -⟩
    exact h
  have hfailed : (step func s i).workers[i]?
      = some (WorkerStatus.failed e) := by
    rw [hstep]
    exact List.getElem?_set_self hlt
  refine ⟨hfailed, by rw [hstep], by rw [hstep], by rw [hstep],
    fun sched => run_preserves_failed func _ i e sched hfailed,
    fun t ht => step_failed_noop func t i e ht⟩

/-- Concrete failing step from the initial state of a run, by evaluation. -/
theorem worker_stops_after_exception_check :
    (step failFunc (initState sampleItems 2) 0).workers[0]?
        = some (WorkerStatus.failed ())
    ∧ (step failFunc (initState sampleItems 2) 0).queue = [([2], ())]
    ∧ (step failFunc (initState sampleItems 2) 0).results
        = (initState sampleItems 2 :
            RunState Nat Unit Nat Unit).results
    ∧ (step failFunc (initState sampleItems 2) 0).dequeued
        = (initState sampleItems 2 :
            RunState Nat Unit Nat Unit).dequeued ++ [(0, ([1], ()))]
    ∧ (run failFunc (step failFunc (initState sampleItems 2) 0) [1]).workers[0]?
        = some (WorkerStatus.failed ())
    ∧ step failFunc (step failFunc (initState sampleItems 2) 0) 0
        = step failFunc (initState sampleItems 2) 0 := by
  obtain ⟨h1, h2, h3, h4, h5, h6⟩ :=
    worker_stops_after_exception failFunc (initState sampleItems 2) 0
      ([1], ()) [([2], ())] () (by decide) (by decide) rfl
  exact ⟨h1, h2, h3, h4, h5 [1], h6 _ h1⟩

/-- Claim C9: `threads_count = 0` is falsy in Python, so it is treated as
unset: on a queue of any size the resolved worker count is the full queue
size, one worker per item, not zero workers. -/
theorem threads_count_zero_acts_as_unset (qsize : Nat) :
    resolvedCount qsize (some 0) = resolvedCount qsize none
    ∧ spawnCount qsize (some 0) = qsize := by
  constructor
  · simp [resolvedCount]
  · simp [spawnCount, resolvedCount]

/-- Claim C10: a negative `threads_count` on a non-empty queue resolves to
the negative `min(queue size, threads_count)`, so `range` spawns zero
workers and the call returns `[]` without invoking `func`, leaving every
work item unprocessed in the queue. -/
theorem threads_count_negative_spawns_none
    (func : WorkItem α κ → Except ε β) (items : List (WorkItem α κ))
    (k : Int) (sched : List Nat) (hk : k < 0) (hne : items ≠ []) :
    resolvedCount items.length (some k) = min (items.length : Int) k
    ∧ resolvedCount items.length (some k) < 0
    ∧ spawnCount items.length (some k) = 0
    ∧ execInParallel func items (some k) sched = Except.ok []
    ∧ (runFinal func items (some k) sched).dequeued = []
    ∧ (runFinal func items (some k) sched).queue = items := by
  have hres : resolvedCount items.length (some k)
      = min (items.length : Int) k := by
    simp only [resolvedCount]
    rw [if_neg (by omega : ¬k = 0)]
  have hneg : resolvedCount items.length (some k) < 0 := by
    rw [hres]
    exact lt_of_le_of_lt (min_le_right _ _) hk
  have hspawn : spawnCount items.length (some k) = 0 := by
    unfold spawnCount
    exact Int.toNat_eq_zero.mpr (le_of_lt hneg)
  have hzero := runFinal_zero_workers func items (some k) sched hspawn
  exact ⟨hres, hneg, hspawn,
    execInParallel_zero_workers func items (some k) sched hspawn,
    by rw [hzero]; rfl, by rw [hzero]; rfl⟩

/-- Concrete negative `threads_count` run, by evaluation. -/
theorem threads_count_negative_spawns_none_check :
    resolvedCount sampleItems.length (some (-1))
        = min (sampleItems.length : Int) (-1)
    ∧ resolvedCount sampleItems.length (some (-1)) < 0
    ∧ spawnCount sampleItems.length (some (-1)) = 0
    ∧ execInParallel okFunc sampleItems (some (-1)) [0, 1, 2] = Except.ok []
    ∧ (runFinal okFunc sampleItems (some (-1)) [0, 1, 2]).dequeued = []
    ∧ (runFinal okFunc sampleItems (some (-1)) [0, 1, 2]).queue
        = sampleItems :=
  threads_count_negative_spawns_none okFunc sampleItems (-1) [0, 1, 2]
    (by decide) (by decide)

end DjangoClickhouse
